import Mathlib

/-! Verification of `etl/endianness.h`.

A shallow embedding of `include/etl/endianness.h` (Embedded Template Library):
the preprocessor configuration of the `ETL_ENDIAN_*` macros, the enumeration
`etl::endian`, the oracle `etl::endianness` and the converters `etl::hton` /
`etl::ntoh`.

Unsigned machine integers are natural numbers below `2 ^ bits`; enumerators of
`etl::endian` are the `int` values they are compared by.
-/

namespace etl

/-! ## Preprocessor configuration (lines 40-78) -/

/-- What the translation unit sees before `endianness.h` is read: the macros the
header tests and the integral values of the constants it may expand to. A macro
is `none` when it is not defined, otherwise it holds the value its replacement
has once converted by `static_cast<int>`. -/
structure Config where
  /-- User definition of the macro `ETL_ENDIAN_LITTLE`. -/
  ETL_ENDIAN_LITTLE : Option Int
  /-- User definition of the macro `ETL_ENDIAN_BIG`. -/
  ETL_ENDIAN_BIG : Option Int
  /-- User definition of the macro `ETL_ENDIAN_NATIVE`. -/
  ETL_ENDIAN_NATIVE : Option Int
  /-- The macro `ETL_CPP11_SUPPORTED` of `platform.h`. -/
  ETL_CPP11_SUPPORTED : Bool
  /-- The macro `ETL_CPP20_SUPPORTED` of `platform.h`. -/
  ETL_CPP20_SUPPORTED : Bool
  /-- The macro `ETL_USING_STL` of `platform.h`. -/
  ETL_USING_STL : Bool
  /-- The enumerator `std::endian::little` of the header `<bit>`. -/
  std_endian_little : Int
  /-- The enumerator `std::endian::big` of the header `<bit>`. -/
  std_endian_big : Int
  /-- The enumerator `std::endian::native` of the header `<bit>`. -/
  std_endian_native : Int
  /-- The compiler macro `__BYTE_ORDER__`. -/
  BYTE_ORDER : Option Int
  /-- The compiler macro `__ORDER_LITTLE_ENDIAN__`. -/
  ORDER_LITTLE_ENDIAN : Option Int
  /-- The compiler macro `__ORDER_BIG_ENDIAN__`. -/
  ORDER_BIG_ENDIAN : Option Int
  /-- The compiler macro `__LITTLE_ENDIAN__`. -/
  LITTLE_ENDIAN : Option Int
  /-- The compiler macro `__BIG_ENDIAN__`. -/
  BIG_ENDIAN : Option Int
  /-- The constant `INT_MAX` of `<limits.h>`. -/
  INT_MAX : Int
  deriving DecidableEq, Repr

/-- Why a translation unit including the header is rejected. -/
inductive BuildError where
  /-- Line 49: `#error All three of ETL_ENDIAN_LITTLE, ETL_ENDIAN_BIG and
  ETL_ENDIAN_NATIVE must be defined`. -/
  | endian_macros
  /-- An enumerator initialiser expands to a name that is not defined. -/
  | undeclared_identifier
  deriving DecidableEq, Repr

deriving instance DecidableEq for Except

/-- The three macros once lines 52-75 have run; a replacement is `none` when it
names a compiler macro that does not exist. -/
structure EndianMacros where
  /-- Replacement of `ETL_ENDIAN_LITTLE`. -/
  ETL_ENDIAN_LITTLE : Option Int
  /-- Replacement of `ETL_ENDIAN_BIG`. -/
  ETL_ENDIAN_BIG : Option Int
  /-- Replacement of `ETL_ENDIAN_NATIVE`. -/
  ETL_ENDIAN_NATIVE : Option Int
  deriving DecidableEq, Repr

/-- The condition of the `#if` on line 48: true when the `#error` on line 49 is
reached. -/
def endian_macros_error (c : Config) : Bool :=
  !((!c.ETL_ENDIAN_LITTLE.isSome && !c.ETL_ENDIAN_BIG.isSome && !c.ETL_ENDIAN_NATIVE.isSome)
    || (c.ETL_ENDIAN_LITTLE.isSome && c.ETL_ENDIAN_BIG.isSome && c.ETL_ENDIAN_NATIVE.isSome))

/-- Lines 52-75: the macros `ETL_ENDIAN_LITTLE`, `ETL_ENDIAN_BIG` and
`ETL_ENDIAN_NATIVE` after the auto-definition block; `none` when they are left
undefined. -/
def define_endian_macros (c : Config) : Option EndianMacros :=
  if !c.ETL_ENDIAN_LITTLE.isSome || !c.ETL_ENDIAN_BIG.isSome || !c.ETL_ENDIAN_NATIVE.isSome then
    -- the three `#undef`s, then the choice of a source for the definitions
    if c.ETL_CPP20_SUPPORTED && c.ETL_USING_STL then
      some ⟨some c.std_endian_little, some c.std_endian_big, some c.std_endian_native⟩
    else if c.BYTE_ORDER.isSome then
      if c.ORDER_LITTLE_ENDIAN.isSome then
        some ⟨c.ORDER_LITTLE_ENDIAN, c.ORDER_BIG_ENDIAN, c.BYTE_ORDER⟩
      else if c.LITTLE_ENDIAN.isSome then
        some ⟨c.LITTLE_ENDIAN, c.BIG_ENDIAN, c.BYTE_ORDER⟩
      else none
    else none
  else
    some ⟨c.ETL_ENDIAN_LITTLE, c.ETL_ENDIAN_BIG, c.ETL_ENDIAN_NATIVE⟩

/-- Line 78: `ETL_ENDIANNESS_IS_CONSTEXPR`, that is
`ETL_CPP11_SUPPORTED && defined(ETL_ENDIAN_NATIVE)`. -/
def ETL_ENDIANNESS_IS_CONSTEXPR (c : Config) : Bool :=
  c.ETL_CPP11_SUPPORTED && (define_endian_macros c).isSome

/-! ## `struct endian` (lines 86-111) -/

/-- The enumeration `etl::endian::enum_type` of one build: the `int` value of
each enumerator. Values of type `etl::endian` are compared through these. -/
structure endian where
  /-- Enumerator `little`. -/
  little : Int
  /-- Enumerator `big`. -/
  big : Int
  /-- Enumerator `native`. -/
  native : Int
  /-- Enumerator `unknown`. -/
  unknown : Int
  deriving DecidableEq, Repr

/-- Lines 88-104: the enumerators, from the macros when `ETL_ENDIAN_NATIVE` is
defined and counted from zero otherwise. -/
def enum_type (c : Config) : Except BuildError endian :=
  match define_endian_macros c with
  | some m =>
    match m.ETL_ENDIAN_LITTLE, m.ETL_ENDIAN_BIG, m.ETL_ENDIAN_NATIVE with
    | some l, some b, some n => .ok ⟨l, b, n, c.INT_MAX⟩
    | _, _, _ => .error .undeclared_identifier
  | none => .ok ⟨0, 1, 2, 2⟩

/-- One accepted build of the header: its enumeration and which body of
`endianness::get` was selected (lines 142-154). -/
structure Build where
  /-- The enumerators of `etl::endian`. -/
  tags : endian
  /-- Whether `ETL_ENDIANNESS_IS_CONSTEXPR` holds. -/
  is_constexpr : Bool
  deriving DecidableEq, Repr

/-- The header as a whole: rejected by the `#error`, rejected by the compiler
or accepted as a `Build`. -/
def build (c : Config) : Except BuildError Build :=
  if endian_macros_error c then .error .endian_macros
  else
    match enum_type c with
    | .ok e => .ok ⟨e, ETL_ENDIANNESS_IS_CONSTEXPR c⟩
    | .error err => .error err

/-! ## Memory layout of the running platform -/

/-- The order in which a platform stores the bytes of a multi-byte integer. -/
inductive ByteLayout where
  /-- Least significant byte at the lowest address. -/
  | little_endian
  /-- Most significant byte at the lowest address. -/
  | big_endian
  /-- The mixed order of the PDP-11: 16-bit halves most significant first,
  bytes inside a half least significant first. -/
  | middle_endian
  deriving DecidableEq, Repr

/-- Byte number `i` of `v`, byte `0` being the least significant. -/
def byte_at (v i : Nat) : Nat := v / 256 ^ i % 256

/-- The four bytes of a `uint32_t` object as they lie in memory, by address
offset from the start of the object. -/
structure ObjectBytes where
  /-- Byte at the lowest address. -/
  offset0 : Nat
  /-- Byte at the next address. -/
  offset1 : Nat
  /-- Byte at the third address. -/
  offset2 : Nat
  /-- Byte at the highest address. -/
  offset3 : Nat
  deriving DecidableEq, Repr

/-- The bytes of a `uint32_t` of value `v` under a layout: what
`reinterpret_cast<const unsigned char*>` lets the program read. -/
def object_representation (layout : ByteLayout) (v : Nat) : ObjectBytes :=
  match layout with
  | .little_endian => ⟨byte_at v 0, byte_at v 1, byte_at v 2, byte_at v 3⟩
  | .big_endian => ⟨byte_at v 3, byte_at v 2, byte_at v 1, byte_at v 0⟩
  | .middle_endian => ⟨byte_at v 2, byte_at v 3, byte_at v 0, byte_at v 1⟩

/-! ## `struct endianness` (lines 117-155) -/

namespace endianness

/-- Line 150: the value of the function-local `static const uint32_t i`. -/
def i : Nat := 0xFFFF0000

/-- Lines 148-153: the run-time body of `get`, which reads the byte of `i` at
the lowest address. -/
def get_runtime (tags : endian) (layout : ByteLayout) : Int :=
  if (object_representation layout i).offset0 = 0 then tags.little else tags.big

/-- Lines 142-154: `get`, the constant `endian::native` when
`ETL_ENDIANNESS_IS_CONSTEXPR` and the run-time probe otherwise. -/
def get (b : Build) (layout : ByteLayout) : Int :=
  if b.is_constexpr then b.tags.native else get_runtime b.tags layout

/-- Lines 135-138: `static etl::endian value()`. -/
def value (b : Build) (layout : ByteLayout) : Int := get b layout

/-- Lines 127-130: `operator etl::endian() const`. -/
def to_endian (b : Build) (layout : ByteLayout) : Int := get b layout

/-- Lines 119-122: `etl::endian operator ()() const`, which converts `*this`. -/
def call (b : Build) (layout : ByteLayout) : Int := to_endian b layout

end endianness

/-! ## `etl::reverse_bytes` (binary.h) -/

/-- Modelled from the spec: `etl::reverse_bytes` is declared in `binary.h`, which
is not part of the sources at hand. Following the glossary entry "byte
reversal", the byte at position `i` of an `n`-byte integer moves to position
`n - 1 - i`: the lowest byte of `v` becomes the highest byte of the result and
the remaining bytes are reversed below it. -/
def reverse_bytes : Nat → Nat → Nat
  | 0, _ => 0
  | n + 1, v => v % 256 * 256 ^ n + reverse_bytes n (v / 256)

/-! ## `ntoh` and `hton` (lines 158-249) -/

/-- Lines 158-161: `uint8_t ntoh(const uint8_t network)`. -/
def ntoh_uint8_t (network : Nat) : Nat := network

/-- Lines 164-174: `uint16_t ntoh(const uint16_t network)`. -/
def ntoh_uint16_t (b : Build) (layout : ByteLayout) (network : Nat) : Nat :=
  if endianness.value b layout = b.tags.little then reverse_bytes 2 network else network

/-- Lines 177-187: `uint32_t ntoh(const uint32_t network)`. -/
def ntoh_uint32_t (b : Build) (layout : ByteLayout) (network : Nat) : Nat :=
  if endianness.value b layout = b.tags.little then reverse_bytes 4 network else network

/-- Lines 191-201: `uint64_t ntoh(const uint64_t network)`, present when
`ETL_USING_64BIT_TYPES`. -/
def ntoh_uint64_t (b : Build) (layout : ByteLayout) (network : Nat) : Nat :=
  if endianness.value b layout = b.tags.little then reverse_bytes 8 network else network

/-- Lines 205-208: `uint8_t hton(const uint8_t host)`. -/
def hton_uint8_t (host : Nat) : Nat := host

/-- Lines 211-221: `uint16_t hton(const uint16_t host)`. -/
def hton_uint16_t (b : Build) (layout : ByteLayout) (host : Nat) : Nat :=
  if endianness.value b layout = b.tags.little then reverse_bytes 2 host else host

/-- Lines 224-234: `uint32_t hton(const uint32_t host)`. -/
def hton_uint32_t (b : Build) (layout : ByteLayout) (host : Nat) : Nat :=
  if endianness.value b layout = b.tags.little then reverse_bytes 4 host else host

/-- Lines 238-248: `uint64_t hton(const uint64_t host)`, present when
`ETL_USING_64BIT_TYPES`. -/
def hton_uint64_t (b : Build) (layout : ByteLayout) (host : Nat) : Nat :=
  if endianness.value b layout = b.tags.little then reverse_bytes 8 host else host

/-- The unsigned integer types the converters are overloaded on. -/
inductive Width where
  /-- The type `uint8_t`. -/
  | uint8_t
  /-- The type `uint16_t`. -/
  | uint16_t
  /-- The type `uint32_t`. -/
  | uint32_t
  /-- The type `uint64_t`. -/
  | uint64_t
  deriving DecidableEq, Repr

/-- Size of the type in bytes. -/
def Width.bytes : Width → Nat
  | .uint8_t => 1
  | .uint16_t => 2
  | .uint32_t => 4
  | .uint64_t => 8

/-- Size of the type in bits. -/
def Width.bits (W : Width) : Nat := 8 * W.bytes

/-- Overload resolution of `ntoh` on the type of its argument. -/
def ntoh (b : Build) (layout : ByteLayout) : Width → Nat → Nat
  | .uint8_t, network => ntoh_uint8_t network
  | .uint16_t, network => ntoh_uint16_t b layout network
  | .uint32_t, network => ntoh_uint32_t b layout network
  | .uint64_t, network => ntoh_uint64_t b layout network

/-- Overload resolution of `hton` on the type of its argument. -/
def hton (b : Build) (layout : ByteLayout) : Width → Nat → Nat
  | .uint8_t, host => hton_uint8_t host
  | .uint16_t, host => hton_uint16_t b layout host
  | .uint32_t, host => hton_uint32_t b layout host
  | .uint64_t, host => hton_uint64_t b layout host

/-! ## Display names of `etl::endian` (lines 106-110) -/

/-- How many of `ETL_ENDIAN_LITTLE`, `ETL_ENDIAN_BIG` and `ETL_ENDIAN_NATIVE`
are defined before the header is read. -/
def Config.predefined (c : Config) : Nat :=
  c.ETL_ENDIAN_LITTLE.toList.length + c.ETL_ENDIAN_BIG.toList.length
    + c.ETL_ENDIAN_NATIVE.toList.length

/-! ## Reference configurations -/

/-- A configuration with no endian macro, no compiler macro and no C++20
library: the header falls back on its own enumeration and on the run-time
probe. -/
def Config.plain : Config where
  ETL_ENDIAN_LITTLE := none
  ETL_ENDIAN_BIG := none
  ETL_ENDIAN_NATIVE := none
  ETL_CPP11_SUPPORTED := false
  ETL_CPP20_SUPPORTED := false
  ETL_USING_STL := false
  std_endian_little := 0
  std_endian_big := 1
  std_endian_native := 0
  BYTE_ORDER := none
  ORDER_LITTLE_ENDIAN := none
  ORDER_BIG_ENDIAN := none
  LITTLE_ENDIAN := none
  BIG_ENDIAN := none
  INT_MAX := 2147483647

/-- A C++11 compiler that predefines `__ORDER_LITTLE_ENDIAN__` as 1234,
`__ORDER_BIG_ENDIAN__` as 4321 and `__BYTE_ORDER__` as `byte_order`. -/
def Config.compiler_macros (byte_order : Int) : Config :=
  { Config.plain with
    ETL_CPP11_SUPPORTED := true
    BYTE_ORDER := some byte_order
    ORDER_LITTLE_ENDIAN := some 1234
    ORDER_BIG_ENDIAN := some 4321 }

/-- The build of the header under `Config.plain`. -/
def Build.plain : Build := ⟨⟨0, 1, 2, 2⟩, false⟩

/-- The build of the header under `Config.compiler_macros byte_order`. -/
def Build.compiler_macros (byte_order : Int) : Build :=
  ⟨⟨1234, 4321, byte_order, 2147483647⟩, true⟩

end etl

namespace etl

/-! ## Byte reversal -/

theorem reverse_bytes_lt (n v : Nat) : reverse_bytes n v < 256 ^ n := by
  induction n generalizing v with
  | zero => simp [reverse_bytes]
  | succ n ih =>
    have h1 : v % 256 < 256 := Nat.mod_lt _ (by norm_num)
    have h2 := ih (v / 256)
    have h3 : v % 256 * 256 ^ n ≤ 255 * 256 ^ n := Nat.mul_le_mul_right _ (by omega)
    simp only [reverse_bytes, pow_succ]
    omega

theorem byte_at_zero (v : Nat) : byte_at v 0 = v % 256 := by
  simp [byte_at]

theorem byte_at_succ (v i : Nat) : byte_at v (i + 1) = byte_at (v / 256) i := by
  simp only [byte_at, pow_succ, Nat.div_div_eq_div_mul]
  rw [Nat.mul_comm]

theorem byte_at_reverse_bytes (n v i : Nat) (hi : i < n) :
    byte_at (reverse_bytes n v) i = byte_at v (n - 1 - i) := by
  induction n generalizing v i with
  | zero => omega
  | succ n ih =>
    have hpos : 0 < 256 ^ i := Nat.pow_pos (by norm_num)
    rcases Nat.lt_or_ge i n with hlt | hge
    · -- the byte is one of the lower `n`, which are the reversal of `v / 256`
      obtain ⟨k, hk⟩ : ∃ k, n = i + (k + 1) := ⟨n - i - 1, by omega⟩
      have hsplit : v % 256 * 256 ^ n = 256 ^ i * (256 * (v % 256 * 256 ^ k)) := by
        rw [hk, pow_add, pow_succ]; ring
      have hidx : n + 1 - 1 - i = (n - 1 - i) + 1 := by omega
      rw [hidx, byte_at_succ, ← ih (v / 256) i hlt]
      simp only [reverse_bytes, byte_at]
      rw [hsplit, Nat.mul_add_div hpos, Nat.mul_add_mod]
    · -- the top byte is the lowest byte of `v`
      have hin : i = n := by omega
      subst hin
      have hidx : i + 1 - 1 - i = 0 := by omega
      rw [hidx, byte_at_zero]
      simp only [reverse_bytes, byte_at]
      rw [Nat.add_comm, Nat.add_mul_div_right _ _ hpos,
        Nat.div_eq_of_lt (reverse_bytes_lt i (v / 256)), Nat.zero_add, Nat.mod_mod]

theorem eq_of_byte_at_eq (n a b : Nat) (ha : a < 256 ^ n) (hb : b < 256 ^ n)
    (h : ∀ i, i < n → byte_at a i = byte_at b i) : a = b := by
  induction n generalizing a b with
  | zero => simp at ha hb; omega
  | succ n ih =>
    have h0 := h 0 (by omega)
    rw [byte_at_zero, byte_at_zero] at h0
    have hdiv : a / 256 = b / 256 := by
      apply ih
      · rw [pow_succ] at ha; omega
      · rw [pow_succ] at hb; omega
      · intro i hi
        rw [← byte_at_succ, ← byte_at_succ]
        exact h (i + 1) (by omega)
    omega

theorem reverse_bytes_reverse_bytes (n v : Nat) (hv : v < 256 ^ n) :
    reverse_bytes n (reverse_bytes n v) = v := by
  apply eq_of_byte_at_eq n _ _ (reverse_bytes_lt n _) hv
  intro i hi
  rw [byte_at_reverse_bytes n _ i hi, byte_at_reverse_bytes n v (n - 1 - i) (by omega)]
  congr 1
  omega

theorem two_pow_bits (W : Width) : 2 ^ W.bits = 256 ^ W.bytes := by
  rw [Width.bits, pow_mul]
  norm_num

theorem hton_of_little (b : Build) (layout : ByteLayout) (W : Width) (v : Nat)
    (hv : v < 2 ^ W.bits) (h : endianness.value b layout = b.tags.little) :
    hton b layout W v = reverse_bytes W.bytes v := by
  cases W
  · have hv8 : v < 256 := by simpa [Width.bits, Width.bytes] using hv
    simp only [hton, hton_uint8_t, Width.bytes, reverse_bytes]
    omega
  all_goals simp [hton, hton_uint16_t, hton_uint32_t, hton_uint64_t, Width.bytes, h]

theorem hton_of_not_little (b : Build) (layout : ByteLayout) (W : Width) (v : Nat)
    (h : endianness.value b layout ≠ b.tags.little) : hton b layout W v = v := by
  cases W <;> simp [hton, hton_uint8_t, hton_uint16_t, hton_uint32_t, hton_uint64_t, h]

theorem ntoh_eq_hton (b : Build) (layout : ByteLayout) (W : Width) (v : Nat) :
    ntoh b layout W v = hton b layout W v := by
  cases W <;> rfl

/-! ## The converters -/

/-- C1: round trip. For every build and memory layout, hence for every tag the
oracle can report, for every width `W` among 8, 16, 32 and 64 bits and every
value `v` of that width, `ntoh(hton(v)) == v`. -/
theorem ntoh_hton_round_trip (b : Build) (layout : ByteLayout) (W : Width) (v : Nat)
    (hv : v < 2 ^ W.bits) : ntoh b layout W (hton b layout W v) = v := by
  rw [ntoh_eq_hton]
  by_cases h : endianness.value b layout = b.tags.little
  · have hr : reverse_bytes W.bytes v < 2 ^ W.bits := by
      rw [two_pow_bits]; exact reverse_bytes_lt _ _
    rw [hton_of_little b layout W v hv h, hton_of_little b layout W _ hr h]
    exact reverse_bytes_reverse_bytes _ _ (by rw [← two_pow_bits]; exact hv)
  · rw [hton_of_not_little b layout W v h, hton_of_not_little b layout W v h]

/-- Witness of C1: the 32-bit value `0x12345678` on a little-endian host of the
plain build, where the bytes are really reversed twice. -/
theorem ntoh_hton_round_trip_witness :
    0x12345678 < 2 ^ Width.uint32_t.bits
      ∧ hton Build.plain .little_endian .uint32_t 0x12345678 = 0x78563412
      ∧ ntoh Build.plain .little_endian .uint32_t
          (hton Build.plain .little_endian .uint32_t 0x12345678) = 0x12345678 :=
  ⟨by decide, by decide,
    ntoh_hton_round_trip Build.plain .little_endian .uint32_t 0x12345678 (by decide)⟩

/-- C2: on a host where `endianness::value() == endian::little`, `hton(v)` and
`ntoh(v)` are the byte reversal of `v`: both equal `reverse_bytes(v)`, and for
every `i` below the number `n` of bytes of the width, byte `i` of the result is
byte `n - 1 - i` of `v`. It holds for 16, 32 and 64 bits, and for 8 bits as
well, where the reversal of one byte is the byte. -/
theorem hton_ntoh_reverse_on_little (b : Build) (layout : ByteLayout) (W : Width) (v : Nat)
    (hv : v < 2 ^ W.bits) (hlittle : endianness.value b layout = b.tags.little)
    (i : Nat) (hi : i < W.bytes) :
    hton b layout W v = reverse_bytes W.bytes v
      ∧ ntoh b layout W v = reverse_bytes W.bytes v
      ∧ byte_at (hton b layout W v) i = byte_at v (W.bytes - 1 - i)
      ∧ byte_at (ntoh b layout W v) i = byte_at v (W.bytes - 1 - i) := by
  have hh := hton_of_little b layout W v hv hlittle
  refine ⟨hh, by rw [ntoh_eq_hton, hh], ?_, ?_⟩
  · rw [hh]; exact byte_at_reverse_bytes _ _ _ hi
  · rw [ntoh_eq_hton, hh]; exact byte_at_reverse_bytes _ _ _ hi

/-- Witness of C2: byte 1 of `hton(0x0102030405060708)` on a little-endian host
is byte 6 of the argument. -/
theorem hton_ntoh_reverse_on_little_witness :
    byte_at 0x0102030405060708 (Width.uint64_t.bytes - 1 - 1) = 0x02
      ∧ byte_at (hton Build.plain .little_endian .uint64_t 0x0102030405060708) 1
          = byte_at 0x0102030405060708 (Width.uint64_t.bytes - 1 - 1) :=
  ⟨by decide,
    (hton_ntoh_reverse_on_little Build.plain .little_endian .uint64_t 0x0102030405060708
      (by decide) (by decide) 1 (by decide)).2.2.1⟩

/-- C3: whenever the oracle reports a tag other than `little` (be it `big`,
`unknown` or anything else), `hton(v) == v` and `ntoh(v) == v` for every width
and every value; in particular where the oracle reports `big`, a tag other than
`little`, `hton` of the 16-bit value `0x1234` is `0x1234`. -/
theorem hton_ntoh_identity_off_little :
    (∀ (b : Build) (layout : ByteLayout) (W : Width) (v : Nat), v < 2 ^ W.bits →
        endianness.value b layout ≠ b.tags.little →
        hton b layout W v = v ∧ ntoh b layout W v = v)
      ∧ (∀ (b : Build) (layout : ByteLayout), endianness.value b layout = b.tags.big →
          b.tags.big ≠ b.tags.little → hton b layout .uint16_t 0x1234 = 0x1234) := by
  constructor
  · intro b layout W v _ h
    exact ⟨hton_of_not_little b layout W v h,
      by rw [ntoh_eq_hton]; exact hton_of_not_little b layout W v h⟩
  · intro b layout hbig hne
    exact hton_of_not_little b layout _ _ (by rw [hbig]; exact hne)

/-- Witness of C3: the plain build on a big-endian host reports `big` and leaves
`0x1234` as it is. -/
theorem hton_ntoh_identity_off_little_witness :
    endianness.value Build.plain .big_endian = Build.plain.tags.big
      ∧ Build.plain.tags.big ≠ Build.plain.tags.little
      ∧ hton Build.plain .big_endian .uint16_t 0x1234 = 0x1234
      ∧ ntoh Build.plain .big_endian .uint16_t 0x1234 = 0x1234 :=
  ⟨by decide, by decide,
    hton_ntoh_identity_off_little.2 Build.plain .big_endian (by decide) (by decide),
    (hton_ntoh_identity_off_little.1 Build.plain .big_endian .uint16_t 0x1234 (by decide)
      (by decide)).2⟩

/-- C4: direction symmetry. For every build, memory layout, width and value,
`hton(v) == ntoh(v)`. -/
theorem hton_eq_ntoh (b : Build) (layout : ByteLayout) (W : Width) (v : Nat) :
    hton b layout W v = ntoh b layout W v :=
  (ntoh_eq_hton b layout W v).symm

/-- C5: 8-bit identity. For every byte `v`, whatever the build and the memory
layout (little-endian included), `hton(v) == v` and `ntoh(v) == v`; the result of
the 8-bit overloads is the same under any two oracles, as they do not consult
it. -/
theorem hton_ntoh_uint8_t_identity (b b' : Build) (layout layout' : ByteLayout) (v : Nat) :
    hton b layout .uint8_t v = v ∧ ntoh b layout .uint8_t v = v
      ∧ hton b layout .uint8_t v = hton b' layout' .uint8_t v
      ∧ ntoh b layout .uint8_t v = ntoh b' layout' .uint8_t v :=
  ⟨rfl, rfl, rfl, rfl⟩

/-- C6: on a host where the oracle reports `little`, `hton` maps the 16-bit
`0x1234` to `0x3412`, the 32-bit `0x12345678` to `0x78563412` and the 64-bit
`0x0102030405060708` to `0x0807060504030201`, and so does `ntoh`. -/
theorem hton_ntoh_concrete_on_little (b : Build) (layout : ByteLayout)
    (hlittle : endianness.value b layout = b.tags.little) :
    hton b layout .uint16_t 0x1234 = 0x3412
      ∧ hton b layout .uint32_t 0x12345678 = 0x78563412
      ∧ hton b layout .uint64_t 0x0102030405060708 = 0x0807060504030201
      ∧ ntoh b layout .uint16_t 0x1234 = 0x3412
      ∧ ntoh b layout .uint32_t 0x12345678 = 0x78563412
      ∧ ntoh b layout .uint64_t 0x0102030405060708 = 0x0807060504030201 := by
  have h16 := hton_of_little b layout .uint16_t 0x1234 (by decide) hlittle
  have h32 := hton_of_little b layout .uint32_t 0x12345678 (by decide) hlittle
  have h64 := hton_of_little b layout .uint64_t 0x0102030405060708 (by decide) hlittle
  have r16 : reverse_bytes Width.uint16_t.bytes 0x1234 = 0x3412 := by decide
  have r32 : reverse_bytes Width.uint32_t.bytes 0x12345678 = 0x78563412 := by decide
  have r64 : reverse_bytes Width.uint64_t.bytes 0x0102030405060708 = 0x0807060504030201 := by
    decide
  refine ⟨?_, ?_, ?_, ?_, ?_, ?_⟩
  · rw [h16, r16]
  · rw [h32, r32]
  · rw [h64, r64]
  · rw [ntoh_eq_hton, h16, r16]
  · rw [ntoh_eq_hton, h32, r32]
  · rw [ntoh_eq_hton, h64, r64]

/-- Witness of C6: the plain build on a little-endian host, whose run-time probe
reports `little`. -/
theorem hton_ntoh_concrete_on_little_witness :
    endianness.value Build.plain .little_endian = Build.plain.tags.little
      ∧ hton Build.plain .little_endian .uint16_t 0x1234 = 0x3412 :=
  ⟨by decide, (hton_ntoh_concrete_on_little Build.plain .little_endian (by decide)).1⟩

/-! ## The oracle -/

theorem get_of_not_constexpr_little_endian (b : Build) (h : b.is_constexpr = false) :
    endianness.get b .little_endian = b.tags.little := by
  have hbyte : (object_representation .little_endian endianness.i).offset0 = 0 := by decide
  simp [endianness.get, h, endianness.get_runtime, hbyte]

theorem get_of_not_constexpr_big_endian (b : Build) (h : b.is_constexpr = false) :
    endianness.get b .big_endian = b.tags.big := by
  have hbyte : (object_representation .big_endian endianness.i).offset0 ≠ 0 := by decide
  simp [endianness.get, h, endianness.get_runtime, hbyte]

theorem build_plain_tags (c : Config) (b : Build) (hb : build c = .ok b)
    (hm : define_endian_macros c = none) : b = Build.plain := by
  unfold build at hb
  split at hb
  · cases hb
  · simp only [enum_type, ETL_ENDIANNESS_IS_CONSTEXPR, hm] at hb
    simp only [Option.isSome_none, Bool.and_false] at hb
    cases hb
    rfl

/-- C8: the run-time probe. When `get()` is not the compile-time one, it holds
the pattern `0xFFFF0000` and returns `endian::little` if the byte of its memory
representation at the lowest address is zero and `endian::big` otherwise (so,
the two tags being distinct, `little` exactly when that byte is zero); hence it
returns `little` under a little-endian layout and `big` under a big-endian
one. -/
theorem get_runtime_probe (b : Build) (layout : ByteLayout) (h : b.is_constexpr = false) :
    endianness.i = 0xFFFF0000
      ∧ endianness.get b layout
          = (if (object_representation layout endianness.i).offset0 = 0
              then b.tags.little else b.tags.big)
      ∧ (b.tags.little ≠ b.tags.big →
          (endianness.get b layout = b.tags.little
            ↔ (object_representation layout endianness.i).offset0 = 0))
      ∧ (layout = .little_endian → endianness.get b layout = b.tags.little)
      ∧ (layout = .big_endian → endianness.get b layout = b.tags.big) := by
  have hget : endianness.get b layout
      = (if (object_representation layout endianness.i).offset0 = 0
          then b.tags.little else b.tags.big) := by
    simp [endianness.get, endianness.get_runtime, h]
  refine ⟨rfl, hget, ?_, ?_, ?_⟩
  · intro hne
    rw [hget]
    constructor
    · intro heq
      by_contra hz
      rw [if_neg hz] at heq
      exact hne heq.symm
    · intro hz
      rw [if_pos hz]
  · intro hlay
    subst hlay
    rw [hget]
    exact if_pos (by decide)
  · intro hlay
    subst hlay
    rw [hget]
    exact if_neg (by decide)

/-- Witness of C8: the plain build probes a little-endian memory and returns
`little`. -/
theorem get_runtime_probe_witness :
    Build.plain.is_constexpr = false
      ∧ (object_representation .little_endian endianness.i).offset0 = 0
      ∧ endianness.get Build.plain .little_endian = Build.plain.tags.little :=
  ⟨rfl, by decide,
    (get_runtime_probe Build.plain .little_endian rfl).2.2.2.1 rfl⟩

/-- C9: the two bodies of `get()` agree. With the same enumeration, on a
little-endian or big-endian layout whose order `endian::native` names (it
equals `little` on the former and `big` on the latter), the compile-time
`get()` returns the tag the run-time probe returns, so `value()`, `hton` and
`ntoh` give the same results under either; and, `little` and `big` being
distinct values, `hton` and `ntoh` give the results of the build without macros,
which probes at run time. -/
theorem get_constexpr_eq_runtime_probe (tags : endian) (layout : ByteLayout)
    (hn : (layout = .little_endian ∧ tags.native = tags.little)
      ∨ (layout = .big_endian ∧ tags.native = tags.big)) :
    endianness.get ⟨tags, true⟩ layout = endianness.get ⟨tags, false⟩ layout
      ∧ endianness.value ⟨tags, true⟩ layout = endianness.value ⟨tags, false⟩ layout
      ∧ (∀ (W : Width) (v : Nat),
          hton ⟨tags, true⟩ layout W v = hton ⟨tags, false⟩ layout W v
            ∧ ntoh ⟨tags, true⟩ layout W v = ntoh ⟨tags, false⟩ layout W v)
      ∧ (tags.little ≠ tags.big → ∀ (W : Width) (v : Nat),
          hton ⟨tags, true⟩ layout W v = hton Build.plain layout W v
            ∧ ntoh ⟨tags, true⟩ layout W v = ntoh Build.plain layout W v) := by
  have hget : endianness.get ⟨tags, true⟩ layout = endianness.get ⟨tags, false⟩ layout := by
    rcases hn with ⟨hl, hnat⟩ | ⟨hl, hnat⟩
    · subst hl
      rw [get_of_not_constexpr_little_endian ⟨tags, false⟩ rfl]
      simpa [endianness.get] using hnat
    · subst hl
      rw [get_of_not_constexpr_big_endian ⟨tags, false⟩ rfl]
      simpa [endianness.get] using hnat
  have hval : endianness.value ⟨tags, true⟩ layout = endianness.value ⟨tags, false⟩ layout :=
    hget
  refine ⟨hget, hval, ?_, ?_⟩
  · intro W v
    have hh : hton ⟨tags, true⟩ layout W v = hton ⟨tags, false⟩ layout W v := by
      cases W <;> simp [hton, hton_uint8_t, hton_uint16_t, hton_uint32_t, hton_uint64_t, hval]
    exact ⟨hh, by rw [ntoh_eq_hton, ntoh_eq_hton, hh]⟩
  · intro hne W v
    have hh : hton ⟨tags, true⟩ layout W v = hton Build.plain layout W v := by
      rcases hn with ⟨hl, hnat⟩ | ⟨hl, hnat⟩
      · subst hl
        have h1 : endianness.value ⟨tags, true⟩ .little_endian = tags.little := hnat
        have hp : endianness.value Build.plain .little_endian = Build.plain.tags.little := by
          decide
        cases W <;>
          simp [hton, hton_uint8_t, hton_uint16_t, hton_uint32_t, hton_uint64_t, h1, hp]
      · subst hl
        have h1 : endianness.value ⟨tags, true⟩ .big_endian = tags.big := hnat
        have h2 : tags.big ≠ tags.little := fun h => hne h.symm
        have hp : endianness.value Build.plain .big_endian ≠ Build.plain.tags.little := by
          decide
        cases W <;>
          simp [hton, hton_uint8_t, hton_uint16_t, hton_uint32_t, hton_uint64_t, h1, h2, hp]
    exact ⟨hh, by rw [ntoh_eq_hton, ntoh_eq_hton, hh]⟩

/-- Witness of C9: the enumeration a compiler with `__BYTE_ORDER__` equal to
`__ORDER_BIG_ENDIAN__` yields, on a big-endian layout. -/
theorem get_constexpr_eq_runtime_probe_witness :
    build (Config.compiler_macros 4321) = .ok ⟨⟨1234, 4321, 4321, 2147483647⟩, true⟩
      ∧ endianness.get ⟨⟨1234, 4321, 4321, 2147483647⟩, true⟩ .big_endian = 4321
      ∧ endianness.get ⟨⟨1234, 4321, 4321, 2147483647⟩, true⟩ .big_endian
        = endianness.get ⟨⟨1234, 4321, 4321, 2147483647⟩, false⟩ .big_endian :=
  ⟨by decide, by decide,
    (get_constexpr_eq_runtime_probe ⟨1234, 4321, 4321, 2147483647⟩ .big_endian
      (Or.inr ⟨rfl, rfl⟩)).1⟩

theorem hton_hton (b : Build) (layout : ByteLayout) (W : Width) (v : Nat)
    (hv : v < 2 ^ W.bits) : hton b layout W (hton b layout W v) = v := by
  by_cases h : endianness.value b layout = b.tags.little
  · have hr : reverse_bytes W.bytes v < 2 ^ W.bits := by
      rw [two_pow_bits]; exact reverse_bytes_lt _ _
    rw [hton_of_little b layout W v hv h, hton_of_little b layout W _ hr h]
    exact reverse_bytes_reverse_bytes _ _ (by rw [← two_pow_bits]; exact hv)
  · rw [hton_of_not_little b layout W v h, hton_of_not_little b layout W v h]

theorem testBit_byte_at (v i k : Nat) :
    (byte_at v i).testBit k = (decide (k < 8) && v.testBit (8 * i + k)) := by
  have h256 : (256 : Nat) = 2 ^ 8 := by norm_num
  have hpow : (256 : Nat) ^ i = 2 ^ (8 * i) := by rw [h256, pow_mul]
  rw [byte_at, hpow, h256, Nat.testBit_mod_two_pow, ← Nat.shiftRight_eq_div_pow,
    Nat.testBit_shiftRight]

theorem testBit_eq_byte_at (v j : Nat) :
    v.testBit j = (byte_at v (j / 8)).testBit (j % 8) := by
  have hlt : j % 8 < 8 := Nat.mod_lt _ (by norm_num)
  rw [testBit_byte_at, Nat.div_add_mod]
  simp [hlt]

theorem testBit_reverse_bytes (n v j : Nat) :
    (reverse_bytes n v).testBit j
      = (decide (j < 8 * n) && v.testBit (8 * (n - 1 - j / 8) + j % 8)) := by
  by_cases hj : j < 8 * n
  · have hdiv : j / 8 < n := by omega
    have hlt : j % 8 < 8 := Nat.mod_lt _ (by norm_num)
    rw [testBit_eq_byte_at, byte_at_reverse_bytes n v _ hdiv, testBit_byte_at]
    simp [hj, hlt]
  · have hle : 8 * n ≤ j := by omega
    have hbound : reverse_bytes n v < 2 ^ j := by
      calc reverse_bytes n v < 256 ^ n := reverse_bytes_lt n v
        _ = 2 ^ (8 * n) := by rw [pow_mul]; norm_num
        _ ≤ 2 ^ j := Nat.pow_le_pow_right (by norm_num) hle
    rw [Nat.testBit_lt_two_pow hbound]
    simp [hj]

theorem reverse_bytes_and (n x y : Nat) :
    reverse_bytes n (x &&& y) = reverse_bytes n x &&& reverse_bytes n y := by
  apply Nat.eq_of_testBit_eq
  intro j
  simp only [testBit_reverse_bytes, Nat.testBit_and]
  cases decide (j < 8 * n) <;> simp

theorem reverse_bytes_or (n x y : Nat) :
    reverse_bytes n (x ||| y) = reverse_bytes n x ||| reverse_bytes n y := by
  apply Nat.eq_of_testBit_eq
  intro j
  simp only [testBit_reverse_bytes, Nat.testBit_or]
  cases decide (j < 8 * n) <;> simp

theorem reverse_bytes_xor (n x y : Nat) :
    reverse_bytes n (x ^^^ y) = reverse_bytes n x ^^^ reverse_bytes n y := by
  apply Nat.eq_of_testBit_eq
  intro j
  simp only [testBit_reverse_bytes, Nat.testBit_xor]
  cases decide (j < 8 * n) <;> simp

theorem hton_cases (b : Build) (layout : ByteLayout) (W : Width) :
    (∀ v, hton b layout W v = v) ∨ (∀ v, hton b layout W v = reverse_bytes W.bytes v) := by
  by_cases h : endianness.value b layout = b.tags.little
  · cases W
    · exact Or.inl (fun _ => rfl)
    all_goals
      right
      intro v
      simp [hton, hton_uint16_t, hton_uint32_t, hton_uint64_t, Width.bytes, h]
  · exact Or.inl (fun v => hton_of_not_little b layout W v h)

/-- C11: each converter is an involution, so it can be reused in the opposite
direction. For every build, memory layout, width and value `v` of that width,
`hton(hton(v)) == v`, `ntoh(ntoh(v)) == v` and `hton(ntoh(v)) == v`. -/
theorem hton_ntoh_involution (b : Build) (layout : ByteLayout) (W : Width) (v : Nat)
    (hv : v < 2 ^ W.bits) :
    hton b layout W (hton b layout W v) = v
      ∧ ntoh b layout W (ntoh b layout W v) = v
      ∧ hton b layout W (ntoh b layout W v) = v := by
  have h := hton_hton b layout W v hv
  refine ⟨h, ?_, ?_⟩
  · rw [ntoh_eq_hton, ntoh_eq_hton]; exact h
  · rw [ntoh_eq_hton]; exact h

/-- Witness of C11: the 16-bit value `0x1234` on a little-endian host of the
plain build, where `hton` gives `0x3412` and a second `hton` gives `0x1234`
back. -/
theorem hton_ntoh_involution_witness :
    hton Build.plain .little_endian .uint16_t 0x1234 = 0x3412
      ∧ hton Build.plain .little_endian .uint16_t
          (hton Build.plain .little_endian .uint16_t 0x1234) = 0x1234 :=
  ⟨by decide,
    (hton_ntoh_involution Build.plain .little_endian .uint16_t 0x1234 (by decide)).1⟩

/-- C18: `hton` and `ntoh` commute with the bitwise operations. For every build,
memory layout, width and values `x`, `y`, `hton(x & y) == hton(x) & hton(y)`,
`hton(x | y) == hton(x) | hton(y)` and `hton(x ^ y) == hton(x) ^ hton(y)`, and
the same for `ntoh`. -/
theorem hton_ntoh_bitwise (b : Build) (layout : ByteLayout) (W : Width) (x y : Nat) :
    hton b layout W (x &&& y) = hton b layout W x &&& hton b layout W y
      ∧ hton b layout W (x ||| y) = hton b layout W x ||| hton b layout W y
      ∧ hton b layout W (x ^^^ y) = hton b layout W x ^^^ hton b layout W y
      ∧ ntoh b layout W (x &&& y) = ntoh b layout W x &&& ntoh b layout W y
      ∧ ntoh b layout W (x ||| y) = ntoh b layout W x ||| ntoh b layout W y
      ∧ ntoh b layout W (x ^^^ y) = ntoh b layout W x ^^^ ntoh b layout W y := by
  simp only [ntoh_eq_hton]
  rcases hton_cases b layout W with h | h
  · simp only [h, and_self]
  · simp only [h, reverse_bytes_and, reverse_bytes_or, reverse_bytes_xor, and_self]

/-! ## The enumeration and the configuration -/

/-- C15: the configuration guard. The macro check of lines 48-50 accepts a
configuration exactly when none or all three of `ETL_ENDIAN_LITTLE`,
`ETL_ENDIAN_BIG` and `ETL_ENDIAN_NATIVE` are predefined; a configuration that
predefines exactly one or exactly two of them is rejected with the `#error`;
and where all three are predefined the header keeps the values as the user
gave them, which are those of the enumerators of the build. -/
theorem endian_macros_guard (c : Config) :
    (endian_macros_error c = false ↔ c.predefined = 0 ∨ c.predefined = 3)
      ∧ (c.predefined = 1 ∨ c.predefined = 2 → build c = .error .endian_macros)
      ∧ (∀ l g n : Int, c.ETL_ENDIAN_LITTLE = some l → c.ETL_ENDIAN_BIG = some g →
          c.ETL_ENDIAN_NATIVE = some n →
          c.predefined = 3
            ∧ define_endian_macros c = some ⟨some l, some g, some n⟩
            ∧ build c = .ok ⟨⟨l, g, n, c.INT_MAX⟩, c.ETL_CPP11_SUPPORTED⟩) := by
  refine ⟨?_, ?_, ?_⟩
  · rcases hl : c.ETL_ENDIAN_LITTLE with _ | l <;> rcases hg : c.ETL_ENDIAN_BIG with _ | g <;>
      rcases hn : c.ETL_ENDIAN_NATIVE with _ | n <;>
      simp [endian_macros_error, Config.predefined, hl, hg, hn]
  · intro h
    have herr : endian_macros_error c = true := by
      revert h
      rcases hl : c.ETL_ENDIAN_LITTLE with _ | l <;> rcases hg : c.ETL_ENDIAN_BIG with _ | g <;>
        rcases hn : c.ETL_ENDIAN_NATIVE with _ | n <;>
        simp [endian_macros_error, Config.predefined, hl, hg, hn]
    simp [build, herr]
  · intro l g n hl hg hn
    have hdef : define_endian_macros c = some ⟨some l, some g, some n⟩ := by
      simp [define_endian_macros, hl, hg, hn]
    refine ⟨by simp [Config.predefined, hl, hg, hn], hdef, ?_⟩
    simp [build, endian_macros_error, enum_type, ETL_ENDIANNESS_IS_CONSTEXPR, hdef, hl, hg, hn]

/-- Witness of C15: a configuration that predefines `ETL_ENDIAN_LITTLE` alone is
rejected with the `#error`. -/
theorem endian_macros_guard_witness :
    Config.predefined { Config.plain with ETL_ENDIAN_LITTLE := some 0 } = 1
      ∧ build { Config.plain with ETL_ENDIAN_LITTLE := some 0 } = .error .endian_macros :=
  ⟨by decide,
    (endian_macros_guard { Config.plain with ETL_ENDIAN_LITTLE := some 0 }).2.1
      (Or.inl (by decide))⟩

/-- C16: in an accepted build without endian macros (enumerators `little` 0,
`big` 1, `native` and `unknown` 2, run-time probe), `endianness::value()` is
never `endian::native`, whatever the memory layout of the platform. -/
theorem value_ne_native_without_macros (c : Config) (b : Build) (layout : ByteLayout)
    (hb : build c = .ok b) (hm : define_endian_macros c = none) :
    b = ⟨⟨0, 1, 2, 2⟩, false⟩ ∧ endianness.value b layout ≠ b.tags.native := by
  have hplain := build_plain_tags c b hb hm
  subst hplain
  refine ⟨rfl, ?_⟩
  cases layout <;> decide

/-- Witness of C16: the plain configuration on a big-endian host, where
`value()` is 1 and `native` is 2. -/
theorem value_ne_native_without_macros_witness :
    endianness.value Build.plain .big_endian = 1 ∧ Build.plain.tags.native = 2
      ∧ endianness.value Build.plain .big_endian ≠ Build.plain.tags.native :=
  ⟨by decide, by decide,
    (value_ne_native_without_macros Config.plain Build.plain .big_endian
      (by decide) (by decide)).2⟩

/-- C17: the three ways of asking the oracle agree. For every build and memory
layout, the function-call operator `endianness()()`, the conversion operator to
`etl::endian` and the static `endianness::value()` return the same tag. -/
theorem call_eq_to_endian_eq_value (b : Build) (layout : ByteLayout) :
    endianness.call b layout = endianness.value b layout
      ∧ endianness.to_endian b layout = endianness.value b layout
      ∧ endianness.call b layout = endianness.to_endian b layout :=
  ⟨rfl, rfl, rfl⟩

/-! ## Display names -/

end etl
